import Mathlib

/-!
Shallow embedding of the pcap-async core: the dispatch engine of
src/packet_iterator.rs (functions dispatch_ex and dispatch, the
dispatch_callback trampoline, PacketIterator) and the PacketStream layer of
src/stream.rs.  The native pcap library (pcap_next_ex, pcap_dispatch, the
interrupt flag read at the top of each loop iteration) is modelled as an
explicit trace of environment events consumed by the dispatch loop; the
pcap_breakloop request that the engine can issue is tracked as an explicit
boolean effect threaded through the loop.  A dispatch over a trace that runs
out of events corresponds to the real loop still blocking inside a native
call, and is modelled as the outcome none.
-/

namespace PcapAsync

/-- Model of struct pcap_pkthdr as read by the engine: timestamp seconds and
microseconds (after the u64 casts performed in the source), caplen and len
(u32 values, modelled as Nat). -/
structure PacketHeader where
  tvSec : Nat
  tvUsec : Nat
  caplen : Nat
  len : Nat
deriving DecidableEq

/-- Modelled from the spec: packet.rs is not under src/.  Per section 3 the
Packet value type carries a capture timestamp (microsecond resolution,
modelled as microseconds since the epoch), captured_length, original_length
and an owned byte buffer; Packet::new(ts, caplen, len, data) is the
constructor exactly as called from packet_iterator.rs. -/
structure Packet where
  ts : Nat
  capturedLength : Nat
  originalLength : Nat
  data : List Nat
deriving DecidableEq

/-- vec![0u8; length] followed by std::ptr::copy of length bytes from the
native buffer: the first n bytes of the modelled source buffer, zero padded
when the modelled source list is shorter than n. -/
def copyBytes (src : List Nat) (n : Nat) : List Nat :=
  src.take n ++ List.replicate (n - src.length) 0

/-- Packet construction shared by dispatch_callback (packet_iterator.rs lines
22-30) and the inline record decoding of dispatch_ex (lines 111-119):
ts = UNIX_EPOCH + secs(tv_sec) + micros(tv_usec), caplen-byte owned buffer,
original length taken from the header. -/
def mkPacket (hdr : PacketHeader) (src : List Nat) : Packet :=
  { ts := hdr.tvSec * 1000000 + hdr.tvUsec
    capturedLength := hdr.caplen
    originalLength := hdr.len
    data := copyBytes src hdr.caplen }

/-- The null-pointer guard of dispatch_callback (packet_iterator.rs line 18):
user == null || header == null && data == null, which with Rust operator
precedence parses as user || (header && data).  When this guard is false the
callback dereferences the header pointer. -/
def dispatchCallbackDrops (userNull headerNull dataNull : Bool) : Bool :=
  userNull || (headerNull && dataNull)

/-- The null-pointer guard of dispatch_ex (packet_iterator.rs line 108):
header == null || data == null. -/
def dispatchExDrops (headerNull dataNull : Bool) : Bool :=
  headerNull || dataNull

/-- One pcap_next_ex outcome: the return code, the nullness of the header and
data pointers it produced, the header contents and the bytes reachable from
the data pointer, and the diagnostic string that convert_libpcap_error would
read from the handle at this point. -/
structure NextExRet where
  code : Int
  headerNull : Bool
  dataNull : Bool
  hdr : PacketHeader
  data : List Nat
  errMsg : String
deriving DecidableEq

/-- One environment event for the dispatch_ex loop: either the interrupt flag
reads true at the top of the loop, or it reads false and pcap_next_ex returns
the given result. -/
inductive EnvEvent where
  | intr
  | call (r : NextExRet)
deriving DecidableEq

/-- The four-variant result type of both dispatch functions
(packet_iterator.rs lines 53-58), with the library Error modelled as the
native diagnostic string. -/
inductive PacketIteratorItem where
  | Complete
  | Err (e : String)
  | NoPackets
  | Packets (ps : List Packet)
deriving DecidableEq

/-- The loop of dispatch_ex (packet_iterator.rs lines 60-145), with the
accumulator and the pcap_breakloop request threaded explicitly.  Returns the
classified outcome (none when the trace is exhausted, i.e. the loop is still
blocked in a native call) together with whether a breakloop request is
pending on the handle. -/
def dispatchExGo (live : Bool) (maxRead : Nat) :
    List EnvEvent → List Packet → Bool → Option PacketIteratorItem × Bool
  | [], _, brk => (none, brk)
  | .intr :: _, packets, brk =>
      (some (if packets.isEmpty then .Complete else .Packets packets), brk)
  | .call r :: rest, packets, brk =>
      if r.code = -2 then
        (some (if packets.isEmpty then .Complete else .Packets packets), brk)
      else if r.code = -1 then
        (some (.Err r.errMsg), brk)
      else if r.code = 0 then
        if packets.isEmpty then
          (some .NoPackets, brk)
        else
          (some (.Packets packets), if live then brk else true)
      else if 0 < r.code then
        let packets' :=
          if dispatchExDrops r.headerNull r.dataNull then packets
          else packets ++ [mkPacket r.hdr r.data]
        if maxRead ≤ packets'.length then
          (some (.Packets packets'), brk)
        else
          dispatchExGo live maxRead rest packets' brk
      else
        (some (.Err r.errMsg), brk)

/-- dispatch_ex entered from the top: empty accumulator, no breakloop request
pending. -/
def dispatchEx (live : Bool) (maxRead : Nat) (trace : List EnvEvent) :
    Option PacketIteratorItem × Bool :=
  dispatchExGo live maxRead trace [] false

/-- One record delivered to dispatch_callback during a pcap_dispatch call:
nullness of the header and data pointers, the header contents and the bytes
at the data pointer. -/
structure NativeRecord where
  headerNull : Bool
  dataNull : Bool
  hdr : PacketHeader
  data : List Nat
deriving DecidableEq

/-- One pcap_dispatch outcome: the return code, the records delivered to the
callback during the call, and the diagnostic string available on the handle. -/
structure DispatchRet where
  code : Int
  records : List NativeRecord
  errMsg : String
deriving DecidableEq

/-- One environment event for the dispatch loop (callback-batch mode). -/
inductive EnvEventCb where
  | intr
  | call (r : DispatchRet)
deriving DecidableEq

/-- Records delivered per callback-mode call, for stating the native per-call
delivery bound. -/
def recordsOf : EnvEventCb → List NativeRecord
  | .intr => []
  | .call r => r.records

/-- The effect of dispatch_callback (packet_iterator.rs lines 13-33) applied
to each delivered record in order: the user pointer is the live accumulator
(never null), so a record is dropped exactly when the guard of line 18 fires,
and otherwise a Packet decoded from the header is appended. -/
def runCallbacks : List Packet → List NativeRecord → List Packet
  | packets, [] => packets
  | packets, r :: rest =>
      runCallbacks
        (if dispatchCallbackDrops false r.headerNull r.dataNull then packets
         else packets ++ [mkPacket r.hdr r.data])
        rest

/-- The loop of dispatch (packet_iterator.rs lines 147-214), callback-batch
mode.  The records of a call are appended through the callback while the
native call runs, then the return code is classified; note the -2 arm
(lines 167-170) returns Complete without consulting the accumulator. -/
def dispatchGo (live : Bool) (maxRead : Nat) :
    List EnvEventCb → List Packet → Bool → Option PacketIteratorItem × Bool
  | [], _, brk => (none, brk)
  | .intr :: _, packets, brk =>
      (some (if packets.isEmpty then .Complete else .Packets packets), brk)
  | .call r :: rest, packets, brk =>
      let packets' := runCallbacks packets r.records
      if r.code = -2 then
        (some .Complete, brk)
      else if r.code = -1 then
        (some (.Err r.errMsg), brk)
      else if r.code = 0 then
        if packets'.isEmpty then
          (some .NoPackets, brk)
        else
          (some (.Packets packets'), if live then brk else true)
      else if 0 < r.code then
        if maxRead ≤ packets'.length then
          (some (.Packets packets'), brk)
        else
          dispatchGo live maxRead rest packets' brk
      else
        (some (.Err r.errMsg), brk)

/-- dispatch entered from the top: empty accumulator, no breakloop request. -/
def dispatch (live : Bool) (maxRead : Nat) (trace : List EnvEventCb) :
    Option PacketIteratorItem × Bool :=
  dispatchGo live maxRead trace [] false

/-- PacketIterator (packet_iterator.rs lines 35-51): the handle itself is
left abstract, only the fields read by next are modelled. -/
structure PacketIterator where
  maxPacketsRead : Nat
  liveCapture : Bool
  isComplete : Bool
deriving DecidableEq

/-- PacketIterator::new (packet_iterator.rs lines 43-50): is_complete is
initialised to false. -/
def PacketIterator.new (maxPacketsRead : Nat) (liveCapture : Bool) : PacketIterator :=
  { maxPacketsRead := maxPacketsRead, liveCapture := liveCapture, isComplete := false }

/-- Iterator::next for PacketIterator (packet_iterator.rs lines 219-231):
returns none when is_complete, otherwise runs one dispatch_ex cycle.  No
field of the iterator is written by next, faithfully to the source. -/
def PacketIterator.next (it : PacketIterator) (trace : List EnvEvent) :
    Option (Option PacketIteratorItem × Bool) :=
  if it.isComplete then none
  else some (dispatchEx it.liveCapture it.maxPacketsRead trace)

/-- The resolution of one bridge unit, i.e. the value of
Result<Option<Vec<Packet>>, Error> that PacketStream::poll_next matches on
(stream.rs line 77). -/
inductive BridgeResolution where
  | errRes (e : String)
  | complete
  | packetsRes (ps : List Packet)
deriving DecidableEq

/-- Modelled from the spec: packet_future.rs (the Async Bridge) is not under
src/.  Per sections 4.3 and 4.4 it translates the engine outcome
Complete to Ok(None), Packets(b) to Ok(Some(b)) and Err(e) to Err(e), while
NoPackets is retried internally and never surfaces (modelled as none). -/
def packetFutureTranslate : PacketIteratorItem → Option BridgeResolution
  | .Complete => some .complete
  | .Err e => some (.errRes e)
  | .NoPackets => none
  | .Packets ps => some (.packetsRes ps)

/-- One item handed to the consumer by the stream: Some(Err(e)) or
Some(Ok(batch)); Poll::Ready(None) is modelled as none at the use sites. -/
inductive PollItem where
  | errItem (e : String)
  | batch (ps : List Packet)
deriving DecidableEq

/-- The match of PacketStream::poll_next on a resolved pending future
(stream.rs lines 77-87): Err(e) yields Some(Err(e)), Ok(None) yields None,
Ok(Some(p)) yields Some(Ok(p)). -/
def pollNext : BridgeResolution → Option PollItem
  | .errRes e => some (.errItem e)
  | .complete => none
  | .packetsRes ps => some (.batch ps)

/-- Successive completed polls of PacketStream (stream.rs lines 63-89): the
pending future is created lazily when the field is None (line 71) and the
field is reset to None as soon as it resolves (line 76), so at every
completed poll the stream holds no state from earlier cycles and the emitted
item is the translation of the current cycle resolution alone. -/
def streamItems : List BridgeResolution → List (Option PollItem)
  | [] => []
  | o :: rest => pollNext o :: streamItems rest

/-- The Handle operations issued by PacketStream::new (stream.rs lines
34-57); handle.rs is not under src/, but the sequence and the
fail-fast chaining of these calls is fully visible in stream.rs. -/
inductive HandleOp where
  | setSnaplen
  | setNonBlock
  | setPromiscuous
  | setTimeout
  | setBufferSize
  | activate
  | compileBpf
  | setBpf
deriving DecidableEq

/-- Outcome of PacketStream::new: success, or the first failing handle
operation (whose native diagnostic becomes the construction error). -/
inductive NewResult where
  | ok
  | err (op : HandleOp)
deriving DecidableEq

/-- The configuration chain issued for a live capture, in source order
(stream.rs lines 38-44): snaplen, non-blocking, promiscuous, timeout, buffer
size, then activation. -/
def liveSetupOps : List HandleOp :=
  [.setSnaplen, .setNonBlock, .setPromiscuous, .setTimeout, .setBufferSize, .activate]

/-- Run a chain of fallible handle operations with the question-mark
operator semantics of stream.rs: stop at the first failure.  Returns the
outcome and the list of operations actually attempted, in order. -/
def runOps (fails : HandleOp → Bool) : List HandleOp → NewResult × List HandleOp
  | [] => (.ok, [])
  | op :: rest =>
      if fails op then (.err op, [op])
      else
        let (r, done) := runOps fails rest
        (r, op :: done)

/-- PacketStream::new (stream.rs lines 34-57): for a live capture, run the
configuration chain ending in activate, then, if a filter expression is
configured, compile and apply it; for a non-live capture nothing is done.
The environment decides which handle operations fail (an invalid filter
expression makes compileBpf fail). -/
def packetStreamNew (live : Bool) (bpf : Option String) (fails : HandleOp → Bool) :
    NewResult × List HandleOp :=
  if live then
    let (r, done) := runOps fails liveSetupOps
    match r with
    | .err op => (.err op, done)
    | .ok =>
        match bpf with
        | none => (.ok, done)
        | some _ =>
            let (r2, done2) := runOps fails [.compileBpf, .setBpf]
            (r2, done ++ done2)
  else (.ok, [])

/-- Every packet in the list satisfies the buffer-length invariant
data.len() == captured_length. -/
def WF (ps : List Packet) : Prop :=
  ∀ p ∈ ps, p.data.length = p.capturedLength

theorem copyBytes_length (src : List Nat) (n : Nat) : (copyBytes src n).length = n := by
  simp [copyBytes]
  omega

theorem mkPacket_wf (hdr : PacketHeader) (src : List Nat) :
    (mkPacket hdr src).data.length = (mkPacket hdr src).capturedLength := by
  simp [mkPacket, copyBytes_length]

theorem wf_append_mk (acc : List Packet) (hdr : PacketHeader) (src : List Nat)
    (h : WF acc) : WF (acc ++ [mkPacket hdr src]) := by
  intro p hp
  rcases List.mem_append.mp hp with hm | hm
  · exact h p hm
  · rcases List.mem_singleton.mp hm with rfl
    exact mkPacket_wf hdr src

theorem runCallbacks_wf (recs : List NativeRecord) :
    ∀ acc : List Packet, WF acc → WF (runCallbacks acc recs) := by
  induction recs with
  | nil => intro acc h; simpa [runCallbacks] using h
  | cons r rest ih =>
      intro acc h
      simp only [runCallbacks]
      apply ih
      cases hd : dispatchCallbackDrops false r.headerNull r.dataNull with
      | false =>
          simp only [hd, Bool.false_eq_true, if_false]
          exact wf_append_mk acc r.hdr r.data h
      | true => simpa [hd] using h

theorem runCallbacks_length (recs : List NativeRecord) :
    ∀ acc : List Packet, (runCallbacks acc recs).length ≤ acc.length + recs.length := by
  induction recs with
  | nil => intro acc; simp [runCallbacks]
  | cons r rest ih =>
      intro acc
      simp only [runCallbacks]
      refine le_trans (ih _) ?_
      cases hd : dispatchCallbackDrops false r.headerNull r.dataNull
      · simp [hd]
        omega
      · simp [hd]

theorem dispatchExGo_wf (live : Bool) (maxRead : Nat) :
    ∀ (trace : List EnvEvent) (acc : List Packet) (brk b : Bool) (ps : List Packet),
      WF acc →
      dispatchExGo live maxRead trace acc brk = (some (.Packets ps), b) →
      WF ps := by
  intro trace
  induction trace with
  | nil =>
      intro acc brk b ps _ h
      simp [dispatchExGo] at h
  | cons e rest ih =>
      intro acc brk b ps hwf h
      cases e with
      | intr =>
          simp only [dispatchExGo, Prod.mk.injEq, Option.some.injEq] at h
          obtain ⟨h1, -⟩ := h
          split at h1
          · simp at h1
          · injection h1 with h1
            subst h1; exact hwf
      | call r =>
          simp only [dispatchExGo] at h
          by_cases h2 : r.code = -2
          · rw [if_pos h2] at h
            simp only [Prod.mk.injEq, Option.some.injEq] at h
            obtain ⟨h1, -⟩ := h
            split at h1
            · simp at h1
            · injection h1 with h1
              subst h1; exact hwf
          · rw [if_neg h2] at h
            by_cases h1 : r.code = -1
            · rw [if_pos h1] at h
              simp at h
            · rw [if_neg h1] at h
              by_cases h0 : r.code = 0
              · rw [if_pos h0] at h
                by_cases he : acc.isEmpty
                · rw [if_pos he] at h
                  simp at h
                · rw [if_neg he] at h
                  simp only [Prod.mk.injEq, Option.some.injEq] at h
                  obtain ⟨h1', -⟩ := h
                  injection h1' with h1'
                  subst h1'; exact hwf
              · rw [if_neg h0] at h
                by_cases hp : 0 < r.code
                · rw [if_pos hp] at h
                  have hwf' : WF (if dispatchExDrops r.headerNull r.dataNull then acc
                      else acc ++ [mkPacket r.hdr r.data]) := by
                    by_cases hd : dispatchExDrops r.headerNull r.dataNull
                    · simpa [hd] using hwf
                    · rw [if_neg hd]
                      exact wf_append_mk acc r.hdr r.data hwf
                  by_cases hmx : maxRead ≤
                      (if dispatchExDrops r.headerNull r.dataNull then acc
                       else acc ++ [mkPacket r.hdr r.data]).length
                  · rw [if_pos hmx] at h
                    simp only [Prod.mk.injEq, Option.some.injEq] at h
                    obtain ⟨h1', -⟩ := h
                    injection h1' with h1'
                    subst h1'; exact hwf'
                  · rw [if_neg hmx] at h
                    exact ih _ brk b ps hwf' h
                · rw [if_neg hp] at h
                  simp at h

theorem dispatchExGo_bounds (live : Bool) (maxRead : Nat) :
    ∀ (trace : List EnvEvent) (acc : List Packet) (brk b : Bool) (ps : List Packet),
      acc.length < maxRead →
      dispatchExGo live maxRead trace acc brk = (some (.Packets ps), b) →
      ps ≠ [] ∧ ps.length ≤ maxRead := by
  intro trace
  induction trace with
  | nil =>
      intro acc brk b ps _ h
      simp [dispatchExGo] at h
  | cons e rest ih =>
      intro acc brk b ps hlt h
      cases e with
      | intr =>
          simp only [dispatchExGo, Prod.mk.injEq, Option.some.injEq] at h
          obtain ⟨h1, -⟩ := h
          split at h1
          · simp at h1
          · next he =>
              injection h1 with h1
              subst h1
              exact ⟨by simpa using he, le_of_lt hlt⟩
      | call r =>
          simp only [dispatchExGo] at h
          by_cases h2 : r.code = -2
          · rw [if_pos h2] at h
            simp only [Prod.mk.injEq, Option.some.injEq] at h
            obtain ⟨h1, -⟩ := h
            split at h1
            · simp at h1
            · next he =>
                injection h1 with h1
                subst h1
                exact ⟨by simpa using he, le_of_lt hlt⟩
          · rw [if_neg h2] at h
            by_cases h1 : r.code = -1
            · rw [if_pos h1] at h
              simp at h
            · rw [if_neg h1] at h
              by_cases h0 : r.code = 0
              · rw [if_pos h0] at h
                by_cases he : acc.isEmpty
                · rw [if_pos he] at h
                  simp at h
                · rw [if_neg he] at h
                  simp only [Prod.mk.injEq, Option.some.injEq] at h
                  obtain ⟨h1', -⟩ := h
                  injection h1' with h1'
                  subst h1'
                  exact ⟨by simpa using he, le_of_lt hlt⟩
              · rw [if_neg h0] at h
                by_cases hp : 0 < r.code
                · rw [if_pos hp] at h
                  have hlen : (if dispatchExDrops r.headerNull r.dataNull then acc
                      else acc ++ [mkPacket r.hdr r.data]).length ≤ acc.length + 1 := by
                    by_cases hd : dispatchExDrops r.headerNull r.dataNull
                    · simp [hd]
                    · simp [hd]
                  by_cases hmx : maxRead ≤
                      (if dispatchExDrops r.headerNull r.dataNull then acc
                       else acc ++ [mkPacket r.hdr r.data]).length
                  · rw [if_pos hmx] at h
                    simp only [Prod.mk.injEq, Option.some.injEq] at h
                    obtain ⟨h1', -⟩ := h
                    injection h1' with h1'
                    subst h1'
                    exact ⟨List.ne_nil_of_length_pos (by omega), by omega⟩
                  · rw [if_neg hmx] at h
                    exact ih _ brk b ps (by omega) h
                · rw [if_neg hp] at h
                  simp at h

theorem dispatchGo_wf (live : Bool) (maxRead : Nat) :
    ∀ (trace : List EnvEventCb) (acc : List Packet) (brk b : Bool) (ps : List Packet),
      WF acc →
      dispatchGo live maxRead trace acc brk = (some (.Packets ps), b) →
      WF ps := by
  intro trace
  induction trace with
  | nil =>
      intro acc brk b ps _ h
      simp [dispatchGo] at h
  | cons e rest ih =>
      intro acc brk b ps hwf h
      cases e with
      | intr =>
          simp only [dispatchGo, Prod.mk.injEq, Option.some.injEq] at h
          obtain ⟨h1, -⟩ := h
          split at h1
          · simp at h1
          · injection h1 with h1
            subst h1; exact hwf
      | call r =>
          simp only [dispatchGo] at h
          have hwf' : WF (runCallbacks acc r.records) := runCallbacks_wf r.records acc hwf
          by_cases h2 : r.code = -2
          · rw [if_pos h2] at h
            simp at h
          · rw [if_neg h2] at h
            by_cases h1 : r.code = -1
            · rw [if_pos h1] at h
              simp at h
            · rw [if_neg h1] at h
              by_cases h0 : r.code = 0
              · rw [if_pos h0] at h
                by_cases he : (runCallbacks acc r.records).isEmpty
                · rw [if_pos he] at h
                  simp at h
                · rw [if_neg he] at h
                  simp only [Prod.mk.injEq, Option.some.injEq] at h
                  obtain ⟨h1', -⟩ := h
                  injection h1' with h1'
                  subst h1'; exact hwf'
              · rw [if_neg h0] at h
                by_cases hp : 0 < r.code
                · rw [if_pos hp] at h
                  by_cases hmx : maxRead ≤ (runCallbacks acc r.records).length
                  · rw [if_pos hmx] at h
                    simp only [Prod.mk.injEq, Option.some.injEq] at h
                    obtain ⟨h1', -⟩ := h
                    injection h1' with h1'
                    subst h1'; exact hwf'
                  · rw [if_neg hmx] at h
                    exact ih _ brk b ps hwf' h
                · rw [if_neg hp] at h
                  simp at h

theorem dispatchGo_bounds (live : Bool) (maxRead : Nat) :
    ∀ (trace : List EnvEventCb) (acc : List Packet) (brk b : Bool) (ps : List Packet),
      1 ≤ maxRead →
      (∀ e ∈ trace, (recordsOf e).length ≤ maxRead) →
      acc.length < maxRead →
      dispatchGo live maxRead trace acc brk = (some (.Packets ps), b) →
      ps ≠ [] ∧ ps.length ≤ 2 * maxRead - 1 := by
  intro trace
  induction trace with
  | nil =>
      intro acc brk b ps _ _ _ h
      simp [dispatchGo] at h
  | cons e rest ih =>
      intro acc brk b ps hmax htr hlt h
      cases e with
      | intr =>
          simp only [dispatchGo, Prod.mk.injEq, Option.some.injEq] at h
          obtain ⟨h1, -⟩ := h
          split at h1
          · simp at h1
          · next he =>
              injection h1 with h1
              subst h1
              exact ⟨by simpa using he, by omega⟩
      | call r =>
          simp only [dispatchGo] at h
          have hrec : r.records.length ≤ maxRead := by
            have := htr (.call r) (by simp)
            simpa [recordsOf] using this
          have hlen : (runCallbacks acc r.records).length ≤ acc.length + r.records.length :=
            runCallbacks_length r.records acc
          have htr' : ∀ e ∈ rest, (recordsOf e).length ≤ maxRead := by
            intro e he
            exact htr e (by simp [he])
          by_cases h2 : r.code = -2
          · rw [if_pos h2] at h
            simp at h
          · rw [if_neg h2] at h
            by_cases h1 : r.code = -1
            · rw [if_pos h1] at h
              simp at h
            · rw [if_neg h1] at h
              by_cases h0 : r.code = 0
              · rw [if_pos h0] at h
                by_cases he : (runCallbacks acc r.records).isEmpty
                · rw [if_pos he] at h
                  simp at h
                · rw [if_neg he] at h
                  simp only [Prod.mk.injEq, Option.some.injEq] at h
                  obtain ⟨h1', -⟩ := h
                  injection h1' with h1'
                  subst h1'
                  exact ⟨by simpa using he, by omega⟩
              · rw [if_neg h0] at h
                by_cases hp : 0 < r.code
                · rw [if_pos hp] at h
                  by_cases hmx : maxRead ≤ (runCallbacks acc r.records).length
                  · rw [if_pos hmx] at h
                    simp only [Prod.mk.injEq, Option.some.injEq] at h
                    obtain ⟨h1', -⟩ := h
                    injection h1' with h1'
                    subst h1'
                    exact ⟨List.ne_nil_of_length_pos (by omega), by omega⟩
                  · rw [if_neg hmx] at h
                    exact ih _ brk b ps hmax htr' (by omega) h
                · rw [if_neg hp] at h
                  simp at h

theorem dispatchGo_ne_nil (live : Bool) (maxRead : Nat) (hmax : 1 ≤ maxRead) :
    ∀ (trace : List EnvEventCb) (acc : List Packet) (brk b : Bool) (ps : List Packet),
      dispatchGo live maxRead trace acc brk = (some (.Packets ps), b) → ps ≠ [] := by
  intro trace
  induction trace with
  | nil =>
      intro acc brk b ps h
      simp [dispatchGo] at h
  | cons e rest ih =>
      intro acc brk b ps h
      cases e with
      | intr =>
          simp only [dispatchGo, Prod.mk.injEq, Option.some.injEq] at h
          obtain ⟨h1, -⟩ := h
          split at h1
          · simp at h1
          · next he =>
              injection h1 with h1
              subst h1
              simpa using he
      | call r =>
          simp only [dispatchGo] at h
          by_cases h2 : r.code = -2
          · rw [if_pos h2] at h
            simp at h
          · rw [if_neg h2] at h
            by_cases h1 : r.code = -1
            · rw [if_pos h1] at h
              simp at h
            · rw [if_neg h1] at h
              by_cases h0 : r.code = 0
              · rw [if_pos h0] at h
                by_cases he : (runCallbacks acc r.records).isEmpty
                · rw [if_pos he] at h
                  simp at h
                · rw [if_neg he] at h
                  simp only [Prod.mk.injEq, Option.some.injEq] at h
                  obtain ⟨h1', -⟩ := h
                  injection h1' with h1'
                  subst h1'
                  simpa using he
              · rw [if_neg h0] at h
                by_cases hp : 0 < r.code
                · rw [if_pos hp] at h
                  by_cases hmx : maxRead ≤ (runCallbacks acc r.records).length
                  · rw [if_pos hmx] at h
                    simp only [Prod.mk.injEq, Option.some.injEq] at h
                    obtain ⟨h1', -⟩ := h
                    injection h1' with h1'
                    subst h1'
                    exact List.ne_nil_of_length_pos (by omega)
                  · rw [if_neg hmx] at h
                    exact ih _ brk b ps h
                · rw [if_neg hp] at h
                  simp at h

/-- Header and packet used in the concrete scenarios below. -/
def sampleHdr : PacketHeader := ⟨3, 5, 2, 9⟩

/-- The packet decoded from sampleHdr with a two-byte buffer. -/
def samplePkt : Packet := mkPacket sampleHdr [7, 8]

/-- Claim C1, counterexample: the stream does not latch after a terminal
outcome.  A first dispatch cycle hits a hard failure and the stream yields
the error item; the next poll creates a fresh pending future, whose cycle
returns a batch, and the stream yields that batch — a further item after
the terminal error item, contradicting the claim that every subsequent
demand signals end-of-sequence and that no further items are produced. -/
theorem c1_counterexample :
    dispatchEx true 4 [.call ⟨-1, false, false, sampleHdr, [], "boom"⟩]
      = (some (.Err "boom"), false) ∧
    packetFutureTranslate (.Err "boom") = some (.errRes "boom") ∧
    dispatchEx true 1 [.call ⟨1, false, false, sampleHdr, [7, 8], ""⟩]
      = (some (.Packets [samplePkt]), false) ∧
    packetFutureTranslate (.Packets [samplePkt]) = some (.packetsRes [samplePkt]) ∧
    streamItems [.errRes "boom", .packetsRes [samplePkt]]
      = [some (.errItem "boom"), some (.batch [samplePkt])] := by
  decide

/-- Claim C1, amended: PacketStream keeps no terminal state across polls
(the pending future is cleared at every resolution), so the item emitted at
any position of the poll sequence is exactly the translation of that
cycle's own bridge resolution, independent of any earlier error item or
end-of-sequence signal; end-of-sequence repeats only while the underlying
cycles keep resolving Complete. -/
theorem c1_stream_poll_is_per_cycle (o : BridgeResolution) (rest : List BridgeResolution) :
    ∀ pre : List BridgeResolution,
      (streamItems (pre ++ o :: rest))[pre.length]? = some (pollNext o) := by
  intro pre
  induction pre with
  | nil => simp [streamItems]
  | cons x xs ih => simpa [streamItems] using ih

/-- Claim C2, counterexample: with ceiling 0 a record-at-a-time cycle
returns a batch of one packet (the ceiling check happens only after the
append), and in callback-batch mode with ceiling 2 two native calls, each
delivering at most 2 records, produce a batch of 3 packets, exceeding the
ceiling. -/
theorem c2_counterexample :
    (dispatchEx true 0 [.call ⟨1, false, false, sampleHdr, [7, 8], ""⟩]
        = (some (.Packets [samplePkt]), false) ∧
      ¬ ([samplePkt] : List Packet).length ≤ 0) ∧
    (dispatch true 2 [.call ⟨1, [⟨false, false, sampleHdr, [7, 8]⟩], ""⟩,
          .call ⟨2, [⟨false, false, sampleHdr, [7, 8]⟩, ⟨false, false, sampleHdr, [7, 8]⟩], ""⟩]
        = (some (.Packets [samplePkt, samplePkt, samplePkt]), false) ∧
      ¬ ([samplePkt, samplePkt, samplePkt] : List Packet).length ≤ 2) := by
  decide

/-- Claim C2, amended: in record-at-a-time mode, for every ceiling of at
least 1, every batch contains at most ceiling-many packets, and with
ceiling 1 every batch has length exactly 1; in callback-batch mode, when
the native call delivers at most ceiling-many records per invocation,
batches are only bounded by twice the ceiling minus one, the ceiling being
checked only between native calls. -/
theorem c2_batch_size_bounds :
    (∀ (live : Bool) (maxRead : Nat) (trace : List EnvEvent) (ps : List Packet) (b : Bool),
      1 ≤ maxRead →
      dispatchEx live maxRead trace = (some (.Packets ps), b) →
      ps.length ≤ maxRead) ∧
    (∀ (live : Bool) (trace : List EnvEvent) (ps : List Packet) (b : Bool),
      dispatchEx live 1 trace = (some (.Packets ps), b) →
      ps.length = 1) ∧
    (∀ (live : Bool) (maxRead : Nat) (trace : List EnvEventCb) (ps : List Packet) (b : Bool),
      1 ≤ maxRead →
      (∀ e ∈ trace, (recordsOf e).length ≤ maxRead) →
      dispatch live maxRead trace = (some (.Packets ps), b) →
      ps.length ≤ 2 * maxRead - 1) := by
  refine ⟨?_, ?_, ?_⟩
  · intro live maxRead trace ps b hmax h
    exact (dispatchExGo_bounds live maxRead trace [] false b ps (by simpa using hmax) h).2
  · intro live trace ps b h
    have hb := dispatchExGo_bounds live 1 trace [] false b ps (by simp) h
    have h1 : 0 < ps.length := List.length_pos_of_ne_nil hb.1
    omega
  · intro live maxRead trace ps b hmax htr h
    exact (dispatchGo_bounds live maxRead trace [] false b ps hmax htr (by simpa using hmax) h).2

/-- Claim C2, witness: a concrete record-mode cycle with ceiling 1. -/
theorem c2_batch_size_bounds_witness : ([samplePkt] : List Packet).length ≤ 1 :=
  c2_batch_size_bounds.1 true 1 [.call ⟨1, false, false, sampleHdr, [7, 8], ""⟩] [samplePkt] false
    (by decide) (by decide)

/-- Claim C3, counterexample: in callback-batch mode a packet is accumulated
by the first native call, and a loop-stopped signal on the second call
returns Complete, discarding it; the same prefix followed instead by a
no-data signal shows the accumulator was non-empty at that point. -/
theorem c3_counterexample :
    dispatch true 10 [.call ⟨1, [⟨false, false, sampleHdr, [7, 8]⟩], ""⟩, .call ⟨-2, [], ""⟩]
      = (some .Complete, false) ∧
    dispatch true 10 [.call ⟨1, [⟨false, false, sampleHdr, [7, 8]⟩], ""⟩, .call ⟨0, [], ""⟩]
      = (some (.Packets [samplePkt]), false) := by
  decide

/-- Claim C3, amended: on a loop-stopped signal the record-at-a-time cycle
returns Complete if the accumulator is empty and Packets(accumulator)
otherwise; the callback-batch cycle returns Complete unconditionally,
discarding any accumulated packets. -/
theorem c3_loop_stopped_behavior :
    (∀ (live : Bool) (maxRead : Nat) (r : NextExRet) (rest : List EnvEvent)
        (acc : List Packet) (brk : Bool),
      r.code = -2 →
      dispatchExGo live maxRead (.call r :: rest) acc brk
        = (some (if acc.isEmpty then .Complete else .Packets acc), brk)) ∧
    (∀ (live : Bool) (maxRead : Nat) (r : DispatchRet) (rest : List EnvEventCb)
        (acc : List Packet) (brk : Bool),
      r.code = -2 →
      dispatchGo live maxRead (.call r :: rest) acc brk = (some .Complete, brk)) := by
  constructor
  · intro live maxRead r rest acc brk hr
    simp [dispatchExGo, hr]
  · intro live maxRead r rest acc brk hr
    simp [dispatchGo, hr]

/-- Claim C3, witness: concrete loop-stopped signals in both modes with a
non-empty accumulator. -/
theorem c3_loop_stopped_behavior_witness :
    dispatchExGo true 4 [.call ⟨-2, false, false, sampleHdr, [], ""⟩] [samplePkt] false
      = (some (.Packets [samplePkt]), false) ∧
    dispatchGo true 4 [.call ⟨-2, [], ""⟩] [samplePkt] false = (some .Complete, false) := by
  constructor
  · have h := c3_loop_stopped_behavior.1 true 4 ⟨-2, false, false, sampleHdr, [], ""⟩ []
      [samplePkt] false rfl
    simpa using h
  · exact c3_loop_stopped_behavior.2 true 4 ⟨-2, [], ""⟩ [] [samplePkt] false rfl

/-- Environment in which only the filter compilation fails; every other
handle operation succeeds, as with a syntactically invalid filter
expression on an otherwise healthy session. -/
def failsOnlyCompile : HandleOp → Bool := fun op => decide (op = HandleOp.compileBpf)

/-- Claim C4, counterexample: with an invalid filter on a live session,
construction fails at compile_bpf, but activate has already been performed
(it appears in the list of attempted operations before the failure); and on
a non-live session the filter is never compiled at all, so construction
succeeds outright. -/
theorem c4_counterexample :
    packetStreamNew true (some "bad (") failsOnlyCompile
      = (.err .compileBpf,
         [.setSnaplen, .setNonBlock, .setPromiscuous, .setTimeout, .setBufferSize, .activate,
          .compileBpf]) ∧
    HandleOp.activate ∈ (packetStreamNew true (some "bad (") failsOnlyCompile).2 ∧
    packetStreamNew false (some "bad (") failsOnlyCompile = (.ok, []) := by
  decide

/-- Claim C4, amended: for a live session whose setup operations succeed, an
invalid filter expression makes construction fail at filter compilation —
before any packet is ever produced, since no stream value is returned — but
the session has already been activated at that point, because activation
precedes filter compilation; for a non-live session the filter expression
is never compiled and construction succeeds. -/
theorem c4_invalid_filter_behavior (fails : HandleOp → Bool) (s : String)
    (hset : ∀ op ∈ liveSetupOps, fails op = false)
    (hcompile : fails .compileBpf = true) :
    (packetStreamNew true (some s) fails).1 = .err .compileBpf ∧
    HandleOp.activate ∈ (packetStreamNew true (some s) fails).2 ∧
    packetStreamNew false (some s) fails = (.ok, []) := by
  have h1 := hset .setSnaplen (by simp [liveSetupOps])
  have h2 := hset .setNonBlock (by simp [liveSetupOps])
  have h3 := hset .setPromiscuous (by simp [liveSetupOps])
  have h4 := hset .setTimeout (by simp [liveSetupOps])
  have h5 := hset .setBufferSize (by simp [liveSetupOps])
  have h6 := hset .activate (by simp [liveSetupOps])
  refine ⟨?_, ?_, ?_⟩
  · simp [packetStreamNew, runOps, liveSetupOps, h1, h2, h3, h4, h5, h6, hcompile]
  · simp [packetStreamNew, runOps, liveSetupOps, h1, h2, h3, h4, h5, h6, hcompile]
  · simp [packetStreamNew]

/-- Claim C4, witness: the concrete failure environment of an invalid
filter expression. -/
theorem c4_invalid_filter_behavior_witness :
    (packetStreamNew true (some "port <>") failsOnlyCompile).1 = .err .compileBpf :=
  (c4_invalid_filter_behavior failsOnlyCompile "port <>" (by decide) (by decide)).1

/-- Claim C5, counterexample: on a non-live session, the first no-data
signal with an empty accumulator returns NoPackets and does not request the
native loop-stop (the breakloop effect stays false), contradicting the
claim that loop-stop is requested regardless of whether the accumulator was
empty or non-empty. -/
theorem c5_counterexample :
    dispatchEx false 10 [.call ⟨0, false, false, sampleHdr, [], ""⟩]
      = (some .NoPackets, false) := by
  decide

/-- Claim C5, amended: on a non-live session, a dispatch cycle observing the
no-data signal with a non-empty accumulator requests the native loop-stop
and returns Packets(accumulator), so that a subsequent cycle, whose native
call then reports loop-stopped, resolves Complete; with an empty
accumulator the cycle returns NoPackets without requesting loop-stop.  The
callback-batch mode behaves the same on the no-data signal. -/
theorem c5_no_data_behavior :
    (∀ (maxRead : Nat) (r : NextExRet) (rest : List EnvEvent) (acc : List Packet) (brk : Bool),
      r.code = 0 → acc ≠ [] →
      dispatchExGo false maxRead (.call r :: rest) acc brk = (some (.Packets acc), true)) ∧
    (∀ (maxRead : Nat) (r : NextExRet) (rest : List EnvEvent) (brk : Bool),
      r.code = 0 →
      dispatchExGo false maxRead (.call r :: rest) [] brk = (some .NoPackets, brk)) ∧
    (∀ (maxRead : Nat) (r : DispatchRet) (rest : List EnvEventCb) (acc : List Packet)
        (brk : Bool),
      r.code = 0 → r.records = [] → acc ≠ [] →
      dispatchGo false maxRead (.call r :: rest) acc brk = (some (.Packets acc), true)) ∧
    (∀ (maxRead : Nat) (r : NextExRet) (rest : List EnvEvent),
      r.code = -2 →
      dispatchEx false maxRead (.call r :: rest) = (some .Complete, false)) := by
  refine ⟨?_, ?_, ?_, ?_⟩
  · intro maxRead r rest acc brk h0 hne
    obtain ⟨a, as, rfl⟩ := List.exists_cons_of_ne_nil hne
    simp [dispatchExGo, h0]
  · intro maxRead r rest brk h0
    simp [dispatchExGo, h0]
  · intro maxRead r rest acc brk h0 hrec hne
    obtain ⟨a, as, rfl⟩ := List.exists_cons_of_ne_nil hne
    simp [dispatchGo, h0, hrec, runCallbacks]
  · intro maxRead r rest h2
    simp [dispatchEx, dispatchExGo, h2]

/-- Claim C5, witness: a concrete non-live no-data cycle with one
accumulated packet requests the loop-stop and keeps the packet. -/
theorem c5_no_data_behavior_witness :
    dispatchExGo false 8 [.call ⟨0, false, false, sampleHdr, [], ""⟩] [samplePkt] false
      = (some (.Packets [samplePkt]), true) :=
  c5_no_data_behavior.1 8 ⟨0, false, false, sampleHdr, [], ""⟩ [] [samplePkt] false rfl
    (by decide)

/-- Claim C6, code bug, evaluated at the failing input: dispatch_ex drops a
record when either pointer is null, but the dispatch_callback guard,
written user == null || header == null && data == null, parses with Rust
precedence as user || (header && data) and therefore only drops a record
when header and data are both null.  A record with a null header and
non-null data is not dropped: it flows into the branch that dereferences
the header pointer — the model shows such a record being decoded (its
header fields read) and appended instead of dropped with a warning. -/
theorem c6_null_header_guard_bug :
    dispatchExDrops true false = true ∧
    dispatchCallbackDrops false true false = false ∧
    runCallbacks [] [⟨true, false, sampleHdr, [7, 8]⟩] = [mkPacket sampleHdr [7, 8]] := by
  decide

/-- Claim C7: the interrupt flag is checked before every native call; when
it is observed set, the cycle returns Complete on an empty accumulator and
Packets(accumulator) otherwise — never an error, whatever events would have
followed — so an interrupt issued before any pull makes the first cycle
resolve Complete, which the bridge and stream translate into an immediate
end-of-sequence with zero packets, while an interrupt mid-cycle still
delivers the packets already accumulated. -/
theorem c7_interrupt_handling :
    (∀ (live : Bool) (maxRead : Nat) (rest : List EnvEvent) (acc : List Packet) (brk : Bool),
      dispatchExGo live maxRead (.intr :: rest) acc brk
        = (some (if acc.isEmpty then .Complete else .Packets acc), brk)) ∧
    (∀ (live : Bool) (maxRead : Nat) (rest : List EnvEvent),
      dispatchEx live maxRead (.intr :: rest) = (some .Complete, false)) ∧
    packetFutureTranslate .Complete = some .complete ∧
    pollNext .complete = none := by
  refine ⟨?_, ?_, rfl, rfl⟩
  · intro live maxRead rest acc brk
    simp [dispatchExGo]
  · intro live maxRead rest
    simp [dispatchEx, dispatchExGo]

/-- Claim C8, counterexample: with ceiling 0, a positive native return
whose record is dropped by the null guard makes the record-mode cycle
return an empty batch, and the stream would hand the consumer an Ok item of
length zero. -/
theorem c8_counterexample :
    dispatchEx true 0 [.call ⟨1, true, true, sampleHdr, [], ""⟩]
      = (some (.Packets []), false) ∧
    pollNext (.packetsRes []) = some (.batch []) := by
  decide

/-- Claim C8, amended: for every ceiling of at least 1, every Packets
outcome of either retrieval mode carries a non-empty packet vector, so
every Ok(batch) item the consumer receives has length at least one; with
ceiling 0 an empty batch can be emitted. -/
theorem c8_nonempty_batches :
    (∀ (live : Bool) (maxRead : Nat) (trace : List EnvEvent) (ps : List Packet) (b : Bool),
      1 ≤ maxRead →
      dispatchEx live maxRead trace = (some (.Packets ps), b) → ps ≠ []) ∧
    (∀ (live : Bool) (maxRead : Nat) (trace : List EnvEventCb) (ps : List Packet) (b : Bool),
      1 ≤ maxRead →
      dispatch live maxRead trace = (some (.Packets ps), b) → ps ≠ []) := by
  constructor
  · intro live maxRead trace ps b hmax h
    exact (dispatchExGo_bounds live maxRead trace [] false b ps (by simpa using hmax) h).1
  · intro live maxRead trace ps b hmax h
    exact dispatchGo_ne_nil live maxRead hmax trace [] false b ps h

/-- Claim C8, witness: a concrete batch returned by a record-mode cycle is
non-empty. -/
theorem c8_nonempty_batches_witness : ([samplePkt] : List Packet) ≠ [] :=
  c8_nonempty_batches.1 true 1 [.call ⟨1, false, false, sampleHdr, [7, 8], ""⟩] [samplePkt] false
    (by decide) (by decide)

/-- Claim C9: every packet constructed by a dispatch cycle carries an owned
buffer of exactly caplen bytes — the constructor itself guarantees
data.len() == captured_length — and every batch returned by either
retrieval mode, for any ceiling, consists of packets satisfying the
invariant; packets are never mutated after construction, the batch only
accumulates by appending. -/
theorem c9_packet_length_invariant :
    (∀ (hdr : PacketHeader) (src : List Nat),
      (mkPacket hdr src).data.length = (mkPacket hdr src).capturedLength) ∧
    (∀ (live : Bool) (maxRead : Nat) (trace : List EnvEvent) (ps : List Packet) (b : Bool),
      dispatchEx live maxRead trace = (some (.Packets ps), b) → WF ps) ∧
    (∀ (live : Bool) (maxRead : Nat) (trace : List EnvEventCb) (ps : List Packet) (b : Bool),
      dispatch live maxRead trace = (some (.Packets ps), b) → WF ps) := by
  refine ⟨mkPacket_wf, ?_, ?_⟩
  · intro live maxRead trace ps b h
    refine dispatchExGo_wf live maxRead trace [] false b ps ?_ h
    intro p hp
    simp at hp
  · intro live maxRead trace ps b h
    refine dispatchGo_wf live maxRead trace [] false b ps ?_ h
    intro p hp
    simp at hp

/-- Claim C9, witness: a concrete cycle whose batch satisfies the
invariant. -/
theorem c9_packet_length_invariant_witness :
    WF [mkPacket ⟨7, 5, 3, 10⟩ [9, 9, 9]] :=
  c9_packet_length_invariant.2.1 true 1 [.call ⟨1, false, false, ⟨7, 5, 3, 10⟩, [9, 9, 9], ""⟩]
    [mkPacket ⟨7, 5, 3, 10⟩ [9, 9, 9]] false (by decide)

/-- Claim C10: is_complete is initialised to false by the constructor, no
code path of the iterator ever writes it, and next on any iterator whose
is_complete field is false returns Some of a fresh dispatch_ex cycle —
never None — whatever the preceding cycles returned. -/
theorem c10_next_never_none :
    (∀ (maxRead : Nat) (live : Bool), (PacketIterator.new maxRead live).isComplete = false) ∧
    (∀ (it : PacketIterator) (trace : List EnvEvent),
      it.isComplete = false →
      it.next trace = some (dispatchEx it.liveCapture it.maxPacketsRead trace) ∧
      it.next trace ≠ none) := by
  constructor
  · intro maxRead live
    rfl
  · intro it trace h
    constructor
    · simp [PacketIterator.next, h]
    · simp [PacketIterator.next, h]

/-- Claim C10, witness: a freshly constructed iterator, polled on a trace
whose cycle resolves Complete, still yields Some. -/
theorem c10_next_never_none_witness :
    (PacketIterator.new 5 true).next [.intr] ≠ none :=
  ((c10_next_never_none.2 (PacketIterator.new 5 true) [.intr]) rfl).2

end PcapAsync
